import Mathlib

/-!
Shallow embedding of the fermion-app SDK manifest-rewriting engine, facade
construction and event bridge (sources: `src/recorded-video.ts`,
`src/livestream-video.ts`, `src/schemas.ts`).

JavaScript strings are modelled as `List Char`.  The JavaScript string
operations the source uses (`split`, `join`, `trim`, `startsWith`,
`includes`, `substring(1)` and the regex `/IV=([^,]+)/`) are embedded as
executable functions on `List Char`.
-/

/-- Whitespace as stripped by JavaScript `String.prototype.trim` (the ASCII
subset relevant to playlist text): space, tab, line feed, carriage return,
vertical tab, form feed. -/
def jsIsWhite (c : Char) : Bool :=
  c == ' ' || c == '\t' || c == '\n' || c == '\r' || c == '\x0b' || c == '\x0c'

/-- JavaScript `s.trim()`: strip leading and trailing whitespace. -/
def jsTrim (l : List Char) : List Char :=
  ((l.dropWhile jsIsWhite).reverse.dropWhile jsIsWhite).reverse

/-- JavaScript `s.split(sep)` for a one-character separator; it always
returns at least one (possibly empty) piece. -/
def jsSplit (sep : Char) : List Char → List (List Char)
  | [] => [[]]
  | c :: rest =>
    match jsSplit sep rest with
    | [] => [[]]
    | h :: t => if c = sep then [] :: h :: t else (c :: h) :: t

/-- JavaScript `parts.join(sep)` for a one-character separator. -/
def jsJoin (sep : Char) : List (List Char) → List Char
  | [] => []
  | [x] => x
  | x :: y :: t => x ++ sep :: jsJoin sep (y :: t)

/-- JavaScript `hay.includes(needle)`: substring containment. -/
def jsIncludes : List Char → List Char → Bool
  | [], needle => needle.isEmpty
  | h :: rest, needle => needle.isPrefixOf (h :: rest) || jsIncludes rest needle

/-- The regex match `line.match(/IV=([^,]+)/)` used by the source: find the
first position where `IV=` is followed by at least one character other than
`,` and capture the maximal run of such characters.  `none` models a failed
match (in the JavaScript source, `match?.[1]` being `undefined`; the capture
group is `+` so a successful match always yields a non-empty capture). -/
def findIV : List Char → Option (List Char)
  | [] => none
  | c :: rest =>
    if "IV=".data.isPrefixOf (c :: rest) then
      match ((c :: rest).drop 3).takeWhile (fun x => x ≠ ',') with
      | [] => findIV rest
      | r :: run => some (r :: run)
    else findIV rest

/-- The playlist header tag `#EXTM3U`. -/
def headerTag : List Char := "#EXTM3U".data

/-- The key directive tag `#EXT-X-KEY`. -/
def keyTag : List Char := "#EXT-X-KEY".data

/-- The comment marker `#`. -/
def hashTag : List Char := "#".data

/-- The error message thrown when a key-directive line lacks an IV. -/
def ivErrorMsg : List Char := "IV not found in #EXT-X-KEY line".data

/-- Does a (trimmed) line start with the key directive tag
(JavaScript `line.startsWith('#EXT-X-KEY')`)? -/
def isKeyLine (t : List Char) : Bool := keyTag.isPrefixOf t

/-- The patched key directive emitted by every rewrite variant:
`#EXT-X-KEY:METHOD=AES-128,URI="<keyUri>",IV=<iv>`. -/
def patchedKeyLine (keyUri iv : List Char) : List Char :=
  "#EXT-X-KEY:METHOD=AES-128,URI=\"".data ++ keyUri ++ "\",IV=".data ++ iv

/-- Segment rewriting of the offline mode:
`segmentBaseUrl + "/" + line + signedUrlSearchParams`. -/
def segmentUrl (base params t : List Char) : List Char :=
  base ++ '/' :: (t ++ params)

/-- Rewrite options of `FermionRecordedVideo.processM3U8` (`M3U8Options` of
`recorded-video.ts`; its `keyUri` is always a string). -/
structure M3U8Options where
  segmentBaseUrl : List Char
  signedUrlSearchParams : List Char
  keyUri : List Char

/-- One loop iteration of `FermionRecordedVideo.processM3U8`: the raw line
is trimmed, then dispatched on header / key-directive / segment / other;
returns the pushed line and the updated `keyInserted` flag, or the thrown
error. -/
def processLineRec (opts : M3U8Options) (keyInserted : Bool) (l : List Char) :
    Except (List Char) (List Char × Bool) :=
  let line := jsTrim l
  if line = headerTag then .ok (line, keyInserted)
  else if isKeyLine line then
    match findIV line with
    | none => .error ivErrorMsg
    | some iv =>
      if keyInserted then .ok (line, true)
      else .ok (patchedKeyLine opts.keyUri iv, true)
  else if !line.isEmpty && !(hashTag.isPrefixOf line) then
    .ok (segmentUrl opts.segmentBaseUrl opts.signedUrlSearchParams line, keyInserted)
  else .ok (line, keyInserted)

/-- The loop of `FermionRecordedVideo.processM3U8` over the split lines,
threading the `keyInserted` flag; a thrown error aborts the whole loop. -/
def processLinesRec (opts : M3U8Options) :
    Bool → List (List Char) → Except (List Char) (List (List Char))
  | _, [] => .ok []
  | ki, l :: rest =>
    match processLineRec opts ki l with
    | .error e => .error e
    | .ok (o, ki2) =>
      match processLinesRec opts ki2 rest with
      | .error e => .error e
      | .ok os => .ok (o :: os)

/-- `FermionRecordedVideo.processM3U8`: split on newline, process each line
with the `keyInserted` flag starting `false`, join on newline. -/
def processM3U8Rec (opts : M3U8Options) (content : List Char) :
    Except (List Char) (List Char) :=
  (processLinesRec opts false (jsSplit '\n' content)).map (jsJoin '\n')

/-- The `segmentBaseUrl` computed by `getM3U8PlaybackUrl`:
`origin + m3u8Pathname.split('/').slice(0, -1).join('/')`. -/
def segmentBaseUrlOf (origin pathname : List Char) : List Char :=
  origin ++ jsJoin '/' ((jsSplit '/' pathname).dropLast)

/-- The pure per-line output of `processM3U8Rec` on non-throwing lines,
as a function of the line and the current `keyInserted` flag. -/
def outLineRec (opts : M3U8Options) (ki : Bool) (l : List Char) : List Char :=
  let line := jsTrim l
  if line = headerTag then line
  else if isKeyLine line then
    if ki then line else patchedKeyLine opts.keyUri ((findIV line).getD [])
  else if !line.isEmpty && !(hashTag.isPrefixOf line) then
    segmentUrl opts.segmentBaseUrl opts.signedUrlSearchParams line
  else line

/-- How one line updates the `keyInserted` flag. -/
def kiStep (ki : Bool) (l : List Char) : Bool := ki || isKeyLine (jsTrim l)

/-- The pure (error-free) run of the recorded-video loop. -/
def runPureRec (opts : M3U8Options) : Bool → List (List Char) → List (List Char)
  | _, [] => []
  | ki, l :: rest => outLineRec opts ki l :: runPureRec opts (kiStep ki l) rest

/-- A line on which `processM3U8Rec` throws: a key-directive line with no
IV match. -/
def keyNoIV (l : List Char) : Prop :=
  isKeyLine (jsTrim l) = true ∧ findIV (jsTrim l) = none

instance (l : List Char) : Decidable (keyNoIV l) := by
  unfold keyNoIV; infer_instance

/-- Rewrite options of `FermionLivestreamVideo.processM3U8` (`M3U8Options`
of `livestream-video.ts`; its `keyUri` is nullable). -/
structure M3U8OptionsLive where
  segmentBaseUrl : List Char
  signedUrlSearchParams : List Char
  keyUri : Option (List Char)

/-- One loop iteration of `FermionLivestreamVideo.processM3U8`.  It differs
from the recorded variant in the key-directive branch: with `keyUri` null
nothing is pushed at all (the source comment there reads `// nothing to
do`), and the IV check runs only when a key URI is present.  The first
component lists the lines pushed by the iteration (zero or one). -/
def processLineLive (opts : M3U8OptionsLive) (keyInserted : Bool) (l : List Char) :
    Except (List Char) (List (List Char) × Bool) :=
  let line := jsTrim l
  if line = headerTag then .ok ([line], keyInserted)
  else if isKeyLine line then
    match opts.keyUri with
    | none => .ok ([], keyInserted)
    | some ku =>
      match findIV line with
      | none => .error ivErrorMsg
      | some iv =>
        if keyInserted then .ok ([line], true)
        else .ok ([patchedKeyLine ku iv], true)
  else if !line.isEmpty && !(hashTag.isPrefixOf line) then
    .ok ([segmentUrl opts.segmentBaseUrl opts.signedUrlSearchParams line], keyInserted)
  else .ok ([line], keyInserted)

/-- The loop of `FermionLivestreamVideo.processM3U8` over the split lines. -/
def processLinesLive (opts : M3U8OptionsLive) :
    Bool → List (List Char) → Except (List Char) (List (List Char))
  | _, [] => .ok []
  | ki, l :: rest =>
    match processLineLive opts ki l with
    | .error e => .error e
    | .ok (os, ki2) =>
      match processLinesLive opts ki2 rest with
      | .error e => .error e
      | .ok rest2 => .ok (os ++ rest2)

/-- `FermionLivestreamVideo.processM3U8`. -/
def processM3U8Live (opts : M3U8OptionsLive) (content : List Char) :
    Except (List Char) (List Char) :=
  (processLinesLive opts false (jsSplit '\n' content)).map (jsJoin '\n')

/-- The per-line output of the live offline rewrite on lines that are not
key directives (header / segment / other). -/
def outLineLiveNoKey (base params : List Char) (l : List Char) : List Char :=
  let line := jsTrim l
  if line = headerTag then line
  else if !line.isEmpty && !(hashTag.isPrefixOf line) then segmentUrl base params line
  else line

/-- Parameters closed over by the `PlaylistLoader` returned by
`FermionLivestreamVideo.createCustomLoader`. -/
structure LoaderOpts where
  signedUrlParam : List Char
  keyUri : Option (List Char)

/-- JavaScript truthiness of the closed-over `keyUri : string | null`:
truthy iff non-null and non-empty. -/
def keyUriTruthy : Option (List Char) → Bool
  | none => false
  | some s => !s.isEmpty

/-- The tail of `PlaylistLoader.patchM3U8`'s per-line arrow function: blank
and comment lines are returned unchanged (the original, untrimmed line);
segment lines get the signed query string appended to the trimmed line,
with `&` plus `signedUrlParam.substring(1)` when the trimmed line already
contains a `?`. -/
def patchSegmentOrPass (param : List Char) (l : List Char) : List Char :=
  let t := jsTrim l
  if t.isEmpty || hashTag.isPrefixOf t then l
  else if t.contains '?' then t ++ '&' :: param.drop 1
  else t ++ param

/-- The per-line arrow function of `PlaylistLoader.patchM3U8`: a trimmed
line starting with `#EXT-X-KEY` is patched only when `keyUri` is truthy and
an IV is found (otherwise the original line is returned unchanged). -/
def patchLine (opts : LoaderOpts) (l : List Char) : List Char :=
  let t := jsTrim l
  if isKeyLine t && keyUriTruthy opts.keyUri then
    match findIV t with
    | none => l
    | some iv => patchedKeyLine (opts.keyUri.getD []) iv
  else patchSegmentOrPass opts.signedUrlParam l

/-- `PlaylistLoader.patchM3U8`: split on newline, map the per-line function,
join on newline.  It is total: no input makes it fail. -/
def patchM3U8 (opts : LoaderOpts) (content : List Char) : List Char :=
  jsJoin '\n' ((jsSplit '\n' content).map (patchLine opts))

/-- Modelled from the spec: the platform WHATWG URL parser invoked as
`new URL("https://" + websiteHostname)` by both facade constructors.  The
parser is a host-platform facility, not code of this repository, so it is
modelled from the spec's words: construction "fails immediately if
`hostname` cannot form a valid absolute URL when prefixed with `https://`"
(e.g. a hostname containing a space fails; `acme.fermion.app` succeeds).
For an `https` URL the text after `https://` up to the first `/`, `?`, `#`
or `\` is the authority; the part of the authority after its last `@` is
`host[:port]`; the URL is valid iff the host is non-empty and free of
forbidden host code points (C0 controls and space, `<`, `>`, `[`, `]`,
`^`, `|`) and the port, when present, is all decimal digits. -/
def validHttpsUrl (h : List Char) : Bool :=
  let auth := h.takeWhile fun c => !(c == '/' || c == '?' || c == '#' || c == '\\')
  let hostPort := (auth.reverse.takeWhile fun c => c ≠ '@').reverse
  let host := hostPort.takeWhile fun c => c ≠ ':'
  let port := (hostPort.dropWhile fun c => c ≠ ':').drop 1
  !host.isEmpty &&
    host.all (fun c => !(decide (c.toNat < 0x21) || c == '<' || c == '>' ||
      c == '[' || c == ']' || c == '^' || c == '|')) &&
    port.all Char.isDigit

/-- The error message both constructors throw on an invalid hostname. -/
def hostnameErrorMsg : List Char :=
  "Invalid website hostname. Please provide a valid hostname (e.g., acme.fermion.app)".data

/-- State of a constructed `FermionRecordedVideo` facade. -/
structure FermionRecordedVideo where
  videoId : List Char
  websiteHostname : List Char

/-- The `FermionRecordedVideo` constructor: store `videoId`, validate the
hostname by attempting `new URL("https://" + hostname)` and store it
unchanged, or throw the descriptive error (no object is produced). -/
def mkFermionRecordedVideo (videoId websiteHostname : List Char) :
    Except (List Char) FermionRecordedVideo :=
  if validHttpsUrl websiteHostname then .ok ⟨videoId, websiteHostname⟩
  else .error hostnameErrorMsg

/-- State of a constructed `FermionLivestreamVideo` facade. -/
structure FermionLivestreamVideo where
  liveEventSessionId : List Char
  websiteHostname : List Char

/-- The `FermionLivestreamVideo` constructor (same validation). -/
def mkFermionLivestreamVideo (liveEventSessionId websiteHostname : List Char) :
    Except (List Char) FermionLivestreamVideo :=
  if validHttpsUrl websiteHostname then .ok ⟨liveEventSessionId, websiteHostname⟩
  else .error hostnameErrorMsg

/-- The closed set of iframe events accepted by `validateIframeEvent`
(`schemas.ts`); numeric payloads are abstracted as integers (the handler
only forwards them, never inspects them). -/
inductive IframeEvent
  | videoPlay (durationAtInSeconds : Int)
  | videoPause (durationAtInSeconds : Int)
  | videoEnded
  | videoLivestreamEnded
  | webrtcLivestreamEnded
  | videoTimeUpdated (currentTimeInSeconds : Int)

/-- Which callbacks are currently registered on an event subscription. -/
structure EventCallbacks where
  play : Bool
  pause : Bool
  ended : Bool

/-- A callback invocation performed by the message handler. -/
inductive CallbackCall
  | play (durationAtInSeconds : Int)
  | pause (durationAtInSeconds : Int)
  | ended

/-- The `messageHandler` installed by `setupEventListenersOnVideo` (same in
both facades): drop the message unless its origin contains the configured
hostname (`event.origin.includes(this.websiteHostname)`); then validate the
payload - `data : Option IframeEvent` models the outcome of
`validateIframeEvent`, with `none` a failed parse, which is caught and
ignored - and dispatch to the registered callback of the event type, if
any.  The result is the callback invocation performed, `none` when no
callback is invoked. -/
def messageHandler (websiteHostname origin : List Char) (data : Option IframeEvent)
    (cbs : EventCallbacks) : Option CallbackCall :=
  if !(jsIncludes origin websiteHostname) then none
  else
    match data with
    | none => none
    | some (.videoPlay d) => if cbs.play then some (.play d) else none
    | some (.videoPause d) => if cbs.pause then some (.pause d) else none
    | some .videoEnded => if cbs.ended then some .ended else none
    | some .videoLivestreamEnded => none
    | some .webrtcLivestreamEnded => none
    | some (.videoTimeUpdated _) => none

instance : DecidableEq (Except (List Char) (List Char)) := fun a b =>
  match a, b with
  | .error e, .error f =>
    if h : e = f then isTrue (by rw [h]) else isFalse (by intro hc; cases hc; exact h rfl)
  | .error _, .ok _ => isFalse (by intro hc; cases hc)
  | .ok _, .error _ => isFalse (by intro hc; cases hc)
  | .ok x, .ok y =>
    if h : x = y then isTrue (by rw [h]) else isFalse (by intro hc; cases hc; exact h rfl)

theorem jsSplit_ne_nil (sep : Char) (s : List Char) : jsSplit sep s ≠ [] := by
  cases s with
  | nil => simp [jsSplit]
  | cons c rest =>
    rw [jsSplit]
    cases h : jsSplit sep rest with
    | nil => simp
    | cons a t => by_cases hc : c = sep <;> simp [hc]

theorem not_mem_of_mem_jsSplit (sep : Char) (s : List Char) :
    ∀ l ∈ jsSplit sep s, sep ∉ l := by
  induction s with
  | nil => intro l hl; rw [jsSplit] at hl; simp at hl; simp [hl]
  | cons c rest ih =>
    intro l hl
    rw [jsSplit] at hl
    cases h : jsSplit sep rest with
    | nil => exact absurd h (jsSplit_ne_nil sep rest)
    | cons a t =>
      rw [h] at hl
      by_cases hc : c = sep
      · simp [hc] at hl
        rcases hl with h1 | h1 | h1
        · simp [h1]
        · exact ih l (by rw [h, h1]; exact List.mem_cons_self a t)
        · exact ih l (by rw [h]; exact List.mem_cons_of_mem a h1)
      · simp [hc] at hl
        rcases hl with h1 | h1
        · rw [h1]
          intro hmem
          rcases List.mem_cons.mp hmem with h2 | h2
          · exact hc h2.symm
          · exact ih a (by rw [h]; exact List.mem_cons_self a t) h2
        · exact ih l (by rw [h]; exact List.mem_cons_of_mem a h1)

theorem jsSplit_of_not_mem {sep : Char} {x : List Char} (h : sep ∉ x) :
    jsSplit sep x = [x] := by
  induction x with
  | nil => rfl
  | cons c rest ih =>
    have hc : sep ≠ c := fun he => h (by rw [he]; exact List.mem_cons_self c rest)
    have hr : sep ∉ rest := fun hm => h (List.mem_cons_of_mem c hm)
    rw [jsSplit, ih hr]
    have hc2 : ¬ c = sep := fun he => hc he.symm
    simp [hc2]

theorem jsSplit_append {sep : Char} {x : List Char} (h : sep ∉ x) (r : List Char) :
    jsSplit sep (x ++ sep :: r) = x :: jsSplit sep r := by
  induction x with
  | nil =>
    rw [List.nil_append, jsSplit]
    cases hr : jsSplit sep r with
    | nil => exact absurd hr (jsSplit_ne_nil sep r)
    | cons a t => simp
  | cons c rest ih =>
    have hc : c ≠ sep := fun he => h (by rw [← he]; exact List.mem_cons_self c rest)
    have hr : sep ∉ rest := fun hm => h (List.mem_cons_of_mem c hm)
    rw [List.cons_append, jsSplit, ih hr]
    simp [hc]

theorem jsSplit_jsJoin {sep : Char} {ls : List (List Char)}
    (h : ∀ l ∈ ls, sep ∉ l) (hne : ls ≠ []) :
    jsSplit sep (jsJoin sep ls) = ls := by
  induction ls with
  | nil => exact absurd rfl hne
  | cons x ls ih =>
    cases ls with
    | nil => exact jsSplit_of_not_mem (h x (List.mem_cons_self x []))
    | cons y t =>
      rw [jsJoin, jsSplit_append (h x (List.mem_cons_self x (y :: t)))]
      rw [ih (fun l hl => h l (List.mem_cons_of_mem x hl)) (by simp)]

theorem isKeyLine_headerTag : isKeyLine headerTag = false := by decide

theorem ne_headerTag_of_key {t : List Char} (h : isKeyLine t = true) : t ≠ headerTag := by
  intro he
  rw [he] at h
  exact absurd h (by decide)

theorem hash_isPrefixOf_of_key {t : List Char} (h : isKeyLine t = true) :
    hashTag.isPrefixOf t = true := by
  cases t with
  | nil => exact absurd h (by decide)
  | cons c t2 =>
    have hk : keyTag.isPrefixOf (c :: t2) = true := h
    have he : keyTag = '#' :: "EXT-X-KEY".data := by decide
    rw [he] at hk
    simp only [List.isPrefixOf, Bool.and_eq_true, beq_iff_eq] at hk
    obtain ⟨h1, -⟩ := hk
    subst h1
    have hh : hashTag = ['#'] := by decide
    rw [hh]
    simp [List.isPrefixOf]

theorem headerTag_ne_nil : headerTag ≠ ([] : List Char) := by decide

theorem isKeyLine_nil : isKeyLine ([] : List Char) = false := by decide

theorem processLineRec_of_not_noIV (opts : M3U8Options) (ki : Bool) (l : List Char)
    (h : ¬ keyNoIV l) :
    processLineRec opts ki l = .ok (outLineRec opts ki l, kiStep ki l) := by
  by_cases h1 : jsTrim l = headerTag
  · simp [processLineRec, outLineRec, kiStep, h1, isKeyLine_headerTag]
  · by_cases h2 : isKeyLine (jsTrim l)
    · rcases hIV : findIV (jsTrim l) with _ | iv
      · exact absurd ⟨h2, hIV⟩ h
      · cases ki <;> simp [processLineRec, outLineRec, kiStep, h1, h2, hIV]
    · by_cases h3 : jsTrim l = []
      · simp [processLineRec, outLineRec, kiStep, h1, h2, h3, headerTag_ne_nil.symm,
          Ne.symm headerTag_ne_nil, isKeyLine_nil]
      · by_cases h4 : hashTag.isPrefixOf (jsTrim l) = true
        · simp [processLineRec, outLineRec, kiStep, h1, h2, h3, h4]
        · simp [processLineRec, outLineRec, kiStep, h1, h2, h3, h4]

theorem processLineRec_of_noIV (opts : M3U8Options) (ki : Bool) (l : List Char)
    (h : keyNoIV l) :
    processLineRec opts ki l = .error ivErrorMsg := by
  obtain ⟨hk, hIV⟩ := h
  have h1 : jsTrim l ≠ headerTag := ne_headerTag_of_key hk
  simp [processLineRec, h1, hk, hIV]

theorem processLinesRec_eq_ok (opts : M3U8Options) (lines : List (List Char))
    (H : ∀ l ∈ lines, ¬ keyNoIV l) :
    ∀ ki, processLinesRec opts ki lines = .ok (runPureRec opts ki lines) := by
  induction lines with
  | nil => intro ki; rfl
  | cons l rest ih =>
    intro ki
    have h1 := processLineRec_of_not_noIV opts ki l (H l (List.mem_cons_self l rest))
    have h2 := ih (fun x hx => H x (List.mem_cons_of_mem l hx)) (kiStep ki l)
    simp [processLinesRec, h1, h2, runPureRec]

theorem processLinesRec_of_noIV (opts : M3U8Options) (lines : List (List Char))
    (H : ∃ l ∈ lines, keyNoIV l) :
    ∀ ki, processLinesRec opts ki lines = .error ivErrorMsg := by
  induction lines with
  | nil => obtain ⟨w, hw, _⟩ := H; cases hw
  | cons l rest ih =>
    intro ki
    by_cases hl : keyNoIV l
    · simp [processLinesRec, processLineRec_of_noIV opts ki l hl]
    · obtain ⟨w, hw, hn⟩ := H
      have hwr : w ∈ rest := by
        rcases List.mem_cons.mp hw with h1 | h1
        · exact absurd (h1 ▸ hn) hl
        · exact h1
      have h1 := processLineRec_of_not_noIV opts ki l hl
      have h2 := ih ⟨w, hwr, hn⟩ (kiStep ki l)
      simp [processLinesRec, h1, h2]

theorem processLinesRec_ok_inv {opts : M3U8Options} {lines : List (List Char)}
    {ki : Bool} {outs : List (List Char)}
    (h : processLinesRec opts ki lines = .ok outs) :
    outs = runPureRec opts ki lines := by
  by_cases H : ∀ l ∈ lines, ¬ keyNoIV l
  · rw [processLinesRec_eq_ok opts lines H ki] at h
    injection h with h
    exact h.symm
  · push_neg at H
    rw [processLinesRec_of_noIV opts lines H ki] at h
    cases h

theorem runPureRec_length (opts : M3U8Options) :
    ∀ (lines : List (List Char)) (ki : Bool),
      (runPureRec opts ki lines).length = lines.length := by
  intro lines
  induction lines with
  | nil => intro ki; rfl
  | cons l rest ih => intro ki; simp [runPureRec, ih]

theorem runPureRec_getElem (opts : M3U8Options) :
    ∀ (lines : List (List Char)) (ki : Bool) (i : Nat),
      (runPureRec opts ki lines)[i]? =
        (lines[i]?).map (outLineRec opts (List.foldl kiStep ki (lines.take i))) := by
  intro lines
  induction lines with
  | nil => intro ki i; simp [runPureRec]
  | cons l rest ih =>
    intro ki i
    cases i with
    | zero => simp [runPureRec]
    | succ n => simp [runPureRec, ih (kiStep ki l) n, List.foldl_cons]

theorem foldl_kiStep (l : List (List Char)) :
    ∀ b, List.foldl kiStep b l = (b || l.any fun x => isKeyLine (jsTrim x)) := by
  induction l with
  | nil => intro b; simp
  | cons x t ih => intro b; simp [List.foldl_cons, ih, kiStep, Bool.or_assoc]

theorem processLineLive_none_eq (b p : List Char) (ki : Bool) (l : List Char) :
    processLineLive ⟨b, p, none⟩ ki l =
      .ok (if isKeyLine (jsTrim l) then [] else [outLineLiveNoKey b p l], ki) := by
  by_cases h1 : jsTrim l = headerTag
  · simp [processLineLive, outLineLiveNoKey, h1, isKeyLine_headerTag]
  · by_cases h2 : isKeyLine (jsTrim l)
    · simp [processLineLive, h1, h2]
    · by_cases h3 : jsTrim l = []
      · simp [processLineLive, outLineLiveNoKey, h1, h2, h3, Ne.symm headerTag_ne_nil,
          isKeyLine_nil]
      · by_cases h4 : hashTag.isPrefixOf (jsTrim l) = true
        · simp [processLineLive, outLineLiveNoKey, h1, h2, h3, h4]
        · simp [processLineLive, outLineLiveNoKey, h1, h2, h3, h4]

theorem processLinesLive_none (b p : List Char) :
    ∀ (lines : List (List Char)) (ki : Bool),
      processLinesLive ⟨b, p, none⟩ ki lines =
        .ok (((lines.filter fun l => !(isKeyLine (jsTrim l)))).map (outLineLiveNoKey b p)) := by
  intro lines
  induction lines with
  | nil => intro ki; rfl
  | cons l rest ih =>
    intro ki
    have h1 := processLineLive_none_eq b p ki l
    have h2 := ih ki
    by_cases h : isKeyLine (jsTrim l) <;>
      simp [processLinesLive, h1, h2, h, List.filter_cons]

theorem mem_of_mem_jsTrim {c : Char} {l : List Char} (h : c ∈ jsTrim l) : c ∈ l := by
  unfold jsTrim at h
  rw [List.mem_reverse] at h
  have h2 := (List.dropWhile_sublist jsIsWhite).subset h
  rw [List.mem_reverse] at h2
  exact (List.dropWhile_sublist jsIsWhite).subset h2

theorem mem_dropWhile_of_not {c : Char} {p : Char → Bool} (hc : p c = false) :
    ∀ {l : List Char}, c ∈ l → c ∈ l.dropWhile p := by
  intro l
  induction l with
  | nil => intro h; cases h
  | cons a t ih =>
    intro h
    by_cases ha : p a = true
    · rw [List.dropWhile_cons, if_pos ha]
      rcases List.mem_cons.mp h with h1 | h1
      · rw [h1] at hc; rw [ha] at hc; cases hc
      · exact ih h1
    · rw [List.dropWhile_cons, if_neg ha]
      exact h

theorem mem_jsTrim_of_not_white {c : Char} {l : List Char} (hm : c ∈ l)
    (hw : jsIsWhite c = false) : c ∈ jsTrim l := by
  unfold jsTrim
  rw [List.mem_reverse]
  apply mem_dropWhile_of_not hw
  rw [List.mem_reverse]
  exact mem_dropWhile_of_not hw hm

theorem findIV_subset : ∀ (t iv : List Char), findIV t = some iv → ∀ c ∈ iv, c ∈ t := by
  intro t
  induction t with
  | nil => intro iv h; rw [findIV] at h; cases h
  | cons a rest ih =>
    intro iv h c hc
    rw [findIV] at h
    by_cases hp : "IV=".data.isPrefixOf (a :: rest) = true
    · rw [if_pos hp] at h
      rcases htw : ((a :: rest).drop 3).takeWhile (fun x => x ≠ ',') with _ | ⟨r, run⟩
      · rw [htw] at h
        exact List.mem_cons_of_mem a (ih iv h c hc)
      · rw [htw] at h
        injection h with h
        subst h
        have h1 : c ∈ ((a :: rest).drop 3).takeWhile (fun x => x ≠ ',') := by
          rw [htw]; exact hc
        have h2 : c ∈ (a :: rest).drop 3 := (List.takeWhile_sublist _).subset h1
        exact (List.drop_sublist 3 (a :: rest)).subset h2
    · rw [if_neg hp] at h
      exact List.mem_cons_of_mem a (ih iv h c hc)

theorem newline_not_mem_outLineRec {opts : M3U8Options}
    (hb : '\n' ∉ opts.segmentBaseUrl) (hp : '\n' ∉ opts.signedUrlSearchParams)
    (hk : '\n' ∉ opts.keyUri) {l : List Char} (hl : '\n' ∉ l) (ki : Bool) :
    '\n' ∉ outLineRec opts ki l := by
  have ht : '\n' ∉ jsTrim l := fun hm => hl (mem_of_mem_jsTrim hm)
  have hpatch : ∀ iv : List Char, '\n' ∉ iv → '\n' ∉ patchedKeyLine opts.keyUri iv := by
    intro iv hiv hmem
    unfold patchedKeyLine at hmem
    rcases List.mem_append.mp hmem with hm1 | hm2
    · rcases List.mem_append.mp hm1 with hm3 | hm4
      · rcases List.mem_append.mp hm3 with hm5 | hm6
        · exact absurd hm5 (by decide)
        · exact hk hm6
      · exact absurd hm4 (by decide)
    · exact hiv hm2
  simp only [outLineRec]
  by_cases h1 : jsTrim l = headerTag
  · rw [if_pos h1]
    exact ht
  · rw [if_neg h1]
    by_cases h2 : isKeyLine (jsTrim l) = true
    · rw [if_pos h2]
      cases ki
      · rw [if_neg Bool.false_ne_true]
        rcases hIV : findIV (jsTrim l) with _ | iv
        · simp only [Option.getD_none]
          exact hpatch [] (by simp)
        · simp only [Option.getD_some]
          exact hpatch iv (fun hm => ht (findIV_subset (jsTrim l) iv hIV '\n' hm))
      · rw [if_pos rfl]
        exact ht
    · rw [if_neg h2]
      by_cases h5 : (!(jsTrim l).isEmpty && !(hashTag.isPrefixOf (jsTrim l))) = true
      · rw [if_pos h5]
        intro hmem
        unfold segmentUrl at hmem
        rcases List.mem_append.mp hmem with hm1 | hm2
        · exact hb hm1
        · rcases List.mem_cons.mp hm2 with hm3 | hm4
          · exact absurd hm3 (by decide)
          · rcases List.mem_append.mp hm4 with hm5 | hm6
            · exact ht hm5
            · exact hp hm6
      · rw [if_neg h5]
        exact ht

theorem newline_not_mem_runPureRec (opts : M3U8Options)
    (hb : '\n' ∉ opts.segmentBaseUrl) (hp : '\n' ∉ opts.signedUrlSearchParams)
    (hk : '\n' ∉ opts.keyUri) :
    ∀ (lines : List (List Char)), (∀ x ∈ lines, '\n' ∉ x) → ∀ ki,
      ∀ o ∈ runPureRec opts ki lines, '\n' ∉ o := by
  intro lines
  induction lines with
  | nil => intro _ ki o ho; cases ho
  | cons l rest ih =>
    intro H ki o ho
    rcases List.mem_cons.mp ho with h1 | h1
    · rw [h1]
      exact newline_not_mem_outLineRec hb hp hk (H l (List.mem_cons_self l rest)) ki
    · exact ih (fun x hx => H x (List.mem_cons_of_mem l hx)) (kiStep ki l) o h1

theorem processM3U8Rec_ok_split {opts : M3U8Options} {content out : List Char}
    (hb : '\n' ∉ opts.segmentBaseUrl) (hp : '\n' ∉ opts.signedUrlSearchParams)
    (hk : '\n' ∉ opts.keyUri)
    (h : processM3U8Rec opts content = .ok out) :
    jsSplit '\n' out = runPureRec opts false (jsSplit '\n' content) := by
  unfold processM3U8Rec at h
  rcases hpl : processLinesRec opts false (jsSplit '\n' content) with e | outs
  · rw [hpl] at h; cases h
  · rw [hpl] at h
    have hout : out = jsJoin '\n' outs := by
      simp only [Except.map] at h
      injection h with h
      exact h.symm
    have houts : outs = runPureRec opts false (jsSplit '\n' content) :=
      processLinesRec_ok_inv hpl
    subst hout
    rw [houts]
    apply jsSplit_jsJoin
    · intro x hx
      exact newline_not_mem_runPureRec opts hb hp hk (jsSplit '\n' content)
        (fun y hy hm => not_mem_of_mem_jsSplit '\n' content y hy hm) false x hx
    · intro hnil
      have h1 := runPureRec_length opts (jsSplit '\n' content) false
      rw [hnil] at h1
      rcases he : jsSplit '\n' content with _ | ⟨z, zs⟩
      · exact jsSplit_ne_nil '\n' content he
      · rw [he] at h1; simp at h1

theorem outLineRec_key_false {opts : M3U8Options} {l : List Char}
    (hk : isKeyLine (jsTrim l) = true) :
    outLineRec opts false l = patchedKeyLine opts.keyUri ((findIV (jsTrim l)).getD []) := by
  simp [outLineRec, ne_headerTag_of_key hk, hk]

theorem outLineRec_key_true {opts : M3U8Options} {l : List Char}
    (hk : isKeyLine (jsTrim l) = true) :
    outLineRec opts true l = jsTrim l := by
  simp [outLineRec, ne_headerTag_of_key hk, hk]

theorem isKeyLine_eq_false_of_not_hash {t : List Char}
    (h : hashTag.isPrefixOf t = false) : isKeyLine t = false := by
  cases hk : isKeyLine t
  · rfl
  · rw [hash_isPrefixOf_of_key hk] at h
    cases h

theorem hash_isPrefixOf_headerTag : hashTag.isPrefixOf headerTag = true := by decide

theorem outLineRec_seg {opts : M3U8Options} {l : List Char} (ki : Bool)
    (h1 : jsTrim l ≠ []) (h2 : hashTag.isPrefixOf (jsTrim l) = false) :
    outLineRec opts ki l = segmentUrl opts.segmentBaseUrl opts.signedUrlSearchParams (jsTrim l) := by
  have hkey : isKeyLine (jsTrim l) = false := isKeyLine_eq_false_of_not_hash h2
  have hhd : jsTrim l ≠ headerTag := by
    intro he
    rw [he, hash_isPrefixOf_headerTag] at h2
    cases h2
  simp [outLineRec, hhd, hkey, h1, h2]

theorem outLineRec_pass {opts : M3U8Options} {l : List Char} (ki : Bool)
    (h : jsTrim l = [] ∨ (hashTag.isPrefixOf (jsTrim l) = true ∧
      jsTrim l ≠ headerTag ∧ isKeyLine (jsTrim l) = false)) :
    outLineRec opts ki l = jsTrim l := by
  rcases h with h | ⟨hh, hne, hnk⟩
  · simp [outLineRec, h, Ne.symm headerTag_ne_nil, isKeyLine_nil]
  · simp [outLineRec, hne, hnk, hh]

theorem contains_iff_mem {l : List Char} {c : Char} : l.contains c = true ↔ c ∈ l :=
  List.elem_iff

theorem single_isPrefixOf_eq {c : Char} {l : List Char} (h : [c].isPrefixOf l = true) :
    l = c :: l.drop 1 := by
  cases l with
  | nil => simp [List.isPrefixOf] at h
  | cons a t =>
    simp only [List.isPrefixOf, Bool.and_eq_true, beq_iff_eq] at h
    obtain ⟨h1, -⟩ := h
    subst h1
    simp

/-- C1 (amended): in the offline recorded-video rewrite with a configured
decryption key, for every manifest whose key-directive lines all carry an
IV attribute the rewrite succeeds with one output line per input line;
exactly one rewritten key-directive line (AES-128 method, the supplied key
URI, the first extracted IV) appears - at the position of the first
key-directive line - and every subsequent key-directive line is emitted in
trimmed form, hence character-for-character identical to the input line
exactly when that line carries no leading or trailing whitespace.  (The
original claim's unconditional "passed through unmodified" fails for
whitespace-padded key lines: see the counterexample.) -/
theorem rec_single_key_insertion (opts : M3U8Options) (content : List Char)
    (H : ∀ l ∈ jsSplit '\n' content, isKeyLine (jsTrim l) = true → findIV (jsTrim l) ≠ none) :
    ∃ outs, processLinesRec opts false (jsSplit '\n' content) = .ok outs ∧
      outs.length = (jsSplit '\n' content).length ∧
      ∀ i l, (jsSplit '\n' content)[i]? = some l → isKeyLine (jsTrim l) = true →
        (((jsSplit '\n' content).take i).any (fun x => isKeyLine (jsTrim x)) = false →
          outs[i]? = some (patchedKeyLine opts.keyUri ((findIV (jsTrim l)).getD []))) ∧
        (((jsSplit '\n' content).take i).any (fun x => isKeyLine (jsTrim x)) = true →
          outs[i]? = some (jsTrim l)) := by
  have Hn : ∀ l ∈ jsSplit '\n' content, ¬ keyNoIV l := by
    intro l hl hkn
    exact H l hl hkn.1 hkn.2
  refine ⟨runPureRec opts false (jsSplit '\n' content),
    processLinesRec_eq_ok opts _ Hn false,
    runPureRec_length opts _ false, ?_⟩
  intro i l hil hkl
  constructor
  · intro hany
    rw [runPureRec_getElem opts _ false i, hil, foldl_kiStep, Bool.false_or, hany]
    rw [Option.map_some']
    rw [outLineRec_key_false hkl]
  · intro hany
    rw [runPureRec_getElem opts _ false i, hil, foldl_kiStep, Bool.false_or, hany]
    rw [Option.map_some']
    rw [outLineRec_key_true hkl]

/-- C1 counterexample: a manifest with two key-directive lines, both with an
IV and a configured key, where the second key line carries a leading space.
The rewrite patches the first line, but the second output line is the
trimmed line, not the original one - so the second key line is not "passed
through unmodified" as the claim states. -/
theorem rec_single_key_insertion_cex :
    (∀ l ∈ jsSplit '\n' ("#EXT-X-KEY:IV=1\n #EXT-X-KEY:IV=2".data),
      isKeyLine (jsTrim l) = true → findIV (jsTrim l) ≠ none) ∧
    processM3U8Rec ⟨[], [], "K".data⟩ ("#EXT-X-KEY:IV=1\n #EXT-X-KEY:IV=2".data) =
      .ok ("#EXT-X-KEY:METHOD=AES-128,URI=\"K\",IV=1\n#EXT-X-KEY:IV=2".data) ∧
    (jsSplit '\n' ("#EXT-X-KEY:IV=1\n #EXT-X-KEY:IV=2".data))[1]? =
      some (" #EXT-X-KEY:IV=2".data) ∧
    (jsSplit '\n' ("#EXT-X-KEY:METHOD=AES-128,URI=\"K\",IV=1\n#EXT-X-KEY:IV=2".data))[1]? =
      some ("#EXT-X-KEY:IV=2".data) ∧
    "#EXT-X-KEY:IV=2".data ≠ " #EXT-X-KEY:IV=2".data := by
  exact ⟨by decide, rfl, rfl, rfl, by decide⟩

/-- C3: in the recorded-video rewrite, any manifest containing at least one
key-directive line whose IV attribute is absent makes the whole rewrite
fail with the error "IV not found in #EXT-X-KEY line" (which names the
missing IV); no partial manifest is returned, and this holds for every
configured key URI. -/
theorem rec_missing_iv_fails (opts : M3U8Options) (content : List Char)
    (H : ∃ l ∈ jsSplit '\n' content, isKeyLine (jsTrim l) = true ∧ findIV (jsTrim l) = none) :
    processM3U8Rec opts content = .error ivErrorMsg := by
  unfold processM3U8Rec
  rw [processLinesRec_of_noIV opts _ H false]
  rfl

/-- C3 witness: the spec's own example manifest (a key line with no IV)
fails with the IV error. -/
theorem rec_missing_iv_fails_witness :
    processM3U8Rec ⟨"B".data, "?s".data, "K".data⟩
      ("#EXTM3U\n#EXT-X-KEY:METHOD=AES-128,URI=\"key\"\nsegment1.ts".data) =
      .error ivErrorMsg :=
  rec_missing_iv_fails _ _ (by decide)

/-- C1 witness: the single-key-insertion theorem applied to a concrete
two-key manifest with a configured key. -/
theorem rec_single_key_insertion_witness :
    (∀ l ∈ jsSplit '\n' ("#EXTM3U\n#EXT-X-KEY:A,IV=111\n#EXT-X-KEY:A,IV=222\nseg.ts".data),
      isKeyLine (jsTrim l) = true → findIV (jsTrim l) ≠ none) ∧
    (∃ outs, processLinesRec ⟨"B".data, "?s".data, "K".data⟩ false
        (jsSplit '\n' ("#EXTM3U\n#EXT-X-KEY:A,IV=111\n#EXT-X-KEY:A,IV=222\nseg.ts".data)) =
        .ok outs ∧
      outs.length =
        (jsSplit '\n' ("#EXTM3U\n#EXT-X-KEY:A,IV=111\n#EXT-X-KEY:A,IV=222\nseg.ts".data)).length ∧
      ∀ i l,
        (jsSplit '\n' ("#EXTM3U\n#EXT-X-KEY:A,IV=111\n#EXT-X-KEY:A,IV=222\nseg.ts".data))[i]? =
          some l →
        isKeyLine (jsTrim l) = true →
        (((jsSplit '\n' ("#EXTM3U\n#EXT-X-KEY:A,IV=111\n#EXT-X-KEY:A,IV=222\nseg.ts".data)).take
            i).any (fun x => isKeyLine (jsTrim x)) = false →
          outs[i]? = some (patchedKeyLine ("K".data) ((findIV (jsTrim l)).getD []))) ∧
        (((jsSplit '\n' ("#EXTM3U\n#EXT-X-KEY:A,IV=111\n#EXT-X-KEY:A,IV=222\nseg.ts".data)).take
            i).any (fun x => isKeyLine (jsTrim x)) = true →
          outs[i]? = some (jsTrim l))) :=
  ⟨by decide, rec_single_key_insertion ⟨"B".data, "?s".data, "K".data⟩ _ (by decide)⟩

/-- C2 (amended): in the offline recorded-video rewrite, every line whose
trimmed form is non-empty and does not start with `#` is replaced by
`segmentBaseUrl ++ "/" ++ trimmedLine ++ signedQueryString`, where
`segmentBaseUrl` is the origin joined with the manifest pathname with its
final path segment removed (`segmentBaseUrlOf`, mirroring
`origin + m3u8Pathname.split('/').slice(0, -1).join('/')` of
`getM3U8PlaybackUrl`).  (The original claim classifies and rewrites by the
raw line; the code uses the trimmed line for both: see the
counterexample.) -/
theorem rec_segment_rewrite (origin pathname keyUri params content : List Char)
    (outs : List (List Char))
    (hok : processLinesRec ⟨segmentBaseUrlOf origin pathname, params, keyUri⟩ false
      (jsSplit '\n' content) = .ok outs)
    (i : Nat) (l : List Char) (hil : (jsSplit '\n' content)[i]? = some l)
    (hne : jsTrim l ≠ []) (hh : hashTag.isPrefixOf (jsTrim l) = false) :
    outs[i]? = some (segmentBaseUrlOf origin pathname ++ '/' :: (jsTrim l ++ params)) := by
  rw [processLinesRec_ok_inv hok, runPureRec_getElem _ _ false i, hil, Option.map_some']
  rw [outLineRec_seg _ hne hh]
  rfl

/-- C2 counterexample: the raw line `" #c"` is non-empty and does not start
with `#`, yet the rewrite trims it first and passes it through as the
comment `"#c"` instead of rewriting it to
`segmentBaseUrl ++ "/" ++ " #c" ++ signedQueryString` as the claim,
read on raw lines, requires. -/
theorem rec_segment_rewrite_cex :
    (" #c".data ≠ ([] : List Char)) ∧
    (hashTag.isPrefixOf (" #c".data) = false) ∧
    processM3U8Rec
      ⟨segmentBaseUrlOf ("https://cdn.example.com".data) ("/video/playlist.m3u8".data),
        "?sig=1".data, "K".data⟩ (" #c".data) = .ok ("#c".data) ∧
    "#c".data ≠
      segmentBaseUrlOf ("https://cdn.example.com".data) ("/video/playlist.m3u8".data) ++
        '/' :: (" #c".data ++ "?sig=1".data) := by
  exact ⟨by decide, by decide, rfl, by decide⟩

/-- C2 witness: the segment-rewrite theorem applied to the spec's example
manifest, origin and pathname: the line `segment1.ts` becomes
`https://cdn.example.com/video/segment1.ts?sig=1`. -/
theorem rec_segment_rewrite_witness :
    (["#EXTM3U".data,
      "https://cdn.example.com/video/segment1.ts?sig=1".data,
      "https://cdn.example.com/video/segment2.ts?sig=1".data] : List (List Char))[1]? =
      some (segmentBaseUrlOf ("https://cdn.example.com".data) ("/video/playlist.m3u8".data) ++
        '/' :: (jsTrim ("segment1.ts".data) ++ "?sig=1".data)) := by
  exact rec_segment_rewrite ("https://cdn.example.com".data) ("/video/playlist.m3u8".data)
    ("K".data) ("?sig=1".data) ("#EXTM3U\nsegment1.ts\nsegment2.ts".data) _ rfl 1
    ("segment1.ts".data) rfl (by decide) (by decide)

/-- C9 (amended): in the offline recorded-video rewrite, every line that is
blank after trimming, and every comment/directive line other than the
header and key-directive lines, is emitted as its trimmed form - so it is
character-for-character identical to the input line exactly when the input
line carries no leading or trailing whitespace.  (The original claim's
"verbatim, including any leading or trailing whitespace" fails: see the
counterexample.) -/
theorem rec_trimmed_passthrough (opts : M3U8Options) (content : List Char)
    (outs : List (List Char))
    (hok : processLinesRec opts false (jsSplit '\n' content) = .ok outs)
    (i : Nat) (l : List Char) (hil : (jsSplit '\n' content)[i]? = some l)
    (hcase : jsTrim l = [] ∨ (hashTag.isPrefixOf (jsTrim l) = true ∧
      jsTrim l ≠ headerTag ∧ isKeyLine (jsTrim l) = false)) :
    outs[i]? = some (jsTrim l) := by
  rw [processLinesRec_ok_inv hok, runPureRec_getElem _ _ false i, hil, Option.map_some']
  rw [outLineRec_pass _ hcase]

/-- C9 counterexample: the comment line `"#comment "` (trailing space) is
emitted as `"#comment"`, not character-for-character identical to the
input line. -/
theorem rec_trimmed_passthrough_cex :
    processM3U8Rec ⟨"B".data, "?s".data, "K".data⟩ ("#EXTM3U\n#comment \n\nseg.ts".data) =
      .ok ("#EXTM3U\n#comment\n\nB/seg.ts?s".data) ∧
    (jsSplit '\n' ("#EXTM3U\n#comment \n\nseg.ts".data))[1]? = some ("#comment ".data) ∧
    (jsSplit '\n' ("#EXTM3U\n#comment\n\nB/seg.ts?s".data))[1]? = some ("#comment".data) ∧
    "#comment".data ≠ "#comment ".data := by
  exact ⟨rfl, rfl, rfl, by decide⟩

/-- C9 witness: the trimmed-passthrough theorem applied to a concrete
manifest at its comment line and at its blank line. -/
theorem rec_trimmed_passthrough_witness :
    (["#EXTM3U".data, "#comment".data, [], "B/seg.ts?s".data] : List (List Char))[1]? =
      some (jsTrim ("#comment ".data)) ∧
    (["#EXTM3U".data, "#comment".data, [], "B/seg.ts?s".data] : List (List Char))[2]? =
      some (jsTrim ([] : List Char)) := by
  constructor
  · exact rec_trimmed_passthrough ⟨"B".data, "?s".data, "K".data⟩
      ("#EXTM3U\n#comment \n\nseg.ts".data) _ rfl 1 ("#comment ".data) rfl
      (Or.inr ⟨by decide, by decide, by decide⟩)
  · exact rec_trimmed_passthrough ⟨"B".data, "?s".data, "K".data⟩
      ("#EXTM3U\n#comment \n\nseg.ts".data) _ rfl 2 ([] : List Char) rfl
      (Or.inl (by decide))

/-- C4 (amended): in the live facade's offline rewrite with no decryption
key configured (`keyUri` null), the rewrite never fails, and its output is
the input's lines with every key-directive line omitted (dropped - not
passed through as the original claim states; see the counterexample) and
all remaining lines processed as usual (header and other directive/blank
lines emitted trimmed, segment lines rewritten). -/
theorem live_nokey_rewrite (base params content : List Char) :
    processM3U8Live ⟨base, params, none⟩ content =
      .ok (jsJoin '\n' (((jsSplit '\n' content).filter fun l => !(isKeyLine (jsTrim l))).map
        (outLineLiveNoKey base params))) := by
  unfold processM3U8Live
  rw [processLinesLive_none base params (jsSplit '\n' content) false]
  rfl

/-- C4 counterexample: a manifest with a key-directive line, rewritten with
no key configured: the rewrite succeeds but the output contains no
key-directive line at all - the input's key line was dropped, not left
untouched. -/
theorem live_nokey_rewrite_cex :
    isKeyLine (jsTrim ("#EXT-X-KEY:METHOD=AES-128,URI=\"key\",IV=123".data)) = true ∧
    (jsSplit '\n' ("#EXTM3U\n#EXT-X-KEY:METHOD=AES-128,URI=\"key\",IV=123\nseg.ts".data))[1]? =
      some ("#EXT-X-KEY:METHOD=AES-128,URI=\"key\",IV=123".data) ∧
    processM3U8Live ⟨[], [], none⟩
      ("#EXTM3U\n#EXT-X-KEY:METHOD=AES-128,URI=\"key\",IV=123\nseg.ts".data) =
      .ok ("#EXTM3U\n/seg.ts".data) ∧
    (∀ o ∈ jsSplit '\n' ("#EXTM3U\n/seg.ts".data), isKeyLine (jsTrim o) = false) := by
  exact ⟨by decide, rfl, rfl, by decide⟩

/-- C10 (amended): for every input on which the offline recorded-video
rewrite does not fail, and rewrite options containing no newline character
(`segmentBaseUrl`, `signedUrlSearchParams`, `keyUri` - without this proviso
the parenthetical split-on-newline count fails, see the counterexample),
the output split on newline has exactly the input's line count, and the
i-th output line is a function (`outLineRec`) of the i-th input line and
the single `keyInserted` flag accumulated over the earlier lines alone
(the flag is whether any earlier line is a key-directive line). -/
theorem rec_line_correspondence (opts : M3U8Options) (content out : List Char)
    (hb : '\n' ∉ opts.segmentBaseUrl) (hp : '\n' ∉ opts.signedUrlSearchParams)
    (hk : '\n' ∉ opts.keyUri)
    (hok : processM3U8Rec opts content = .ok out) :
    (jsSplit '\n' out).length = (jsSplit '\n' content).length ∧
    ∀ i : Nat, (jsSplit '\n' out)[i]? =
      ((jsSplit '\n' content)[i]?).map
        (outLineRec opts (((jsSplit '\n' content).take i).any fun x => isKeyLine (jsTrim x))) := by
  have hsp := processM3U8Rec_ok_split hb hp hk hok
  constructor
  · rw [hsp, runPureRec_length]
  · intro i
    rw [hsp, runPureRec_getElem opts _ false i, foldl_kiStep, Bool.false_or]

/-- C10 counterexample: with a `segmentBaseUrl` containing a newline the
rewrite succeeds, but the output splits into two lines while the input had
one - the claim's split-on-newline line count fails. -/
theorem rec_line_correspondence_cex :
    processM3U8Rec ⟨"a\nb".data, [], "K".data⟩ ("s".data) = .ok ("a\nb/s".data) ∧
    (jsSplit '\n' ("a\nb/s".data)).length = 2 ∧
    (jsSplit '\n' ("s".data)).length = 1 := by
  exact ⟨rfl, rfl, rfl⟩

/-- C10 witness: the line-correspondence theorem applied to a concrete
manifest and newline-free options, instantiated at line 1. -/
theorem rec_line_correspondence_witness :
    (jsSplit '\n' ("#EXTM3U\nB/seg.ts?s".data)).length =
      (jsSplit '\n' ("#EXTM3U\nseg.ts".data)).length ∧
    (jsSplit '\n' ("#EXTM3U\nB/seg.ts?s".data))[1]? =
      ((jsSplit '\n' ("#EXTM3U\nseg.ts".data))[1]?).map
        (outLineRec ⟨"B".data, "?s".data, "K".data⟩
          (((jsSplit '\n' ("#EXTM3U\nseg.ts".data)).take 1).any
            fun x => isKeyLine (jsTrim x))) := by
  have h := rec_line_correspondence ⟨"B".data, "?s".data, "K".data⟩
    ("#EXTM3U\nseg.ts".data) ("#EXTM3U\nB/seg.ts?s".data)
    (by decide) (by decide) (by decide) rfl
  exact ⟨h.1, h.2 1⟩

/-- C5: in the streaming-mode rewrite, a segment line (trimmed form
non-empty and not starting with `#`) with the configured query string
carrying a leading `?` and no other `?`: if the line already contains a
`?`, the output is the trimmed line with `&` plus the query string minus
its leading `?` appended, adding no `?` at all; otherwise the output is the
trimmed line with the query string appended, adding exactly one `?`.  In no
case does the rewrite introduce two `?` characters. -/
theorem stream_segment_query_append (opts : LoaderOpts) (l : List Char)
    (hne : jsTrim l ≠ []) (hh : hashTag.isPrefixOf (jsTrim l) = false)
    (hq : ['?'].isPrefixOf opts.signedUrlParam = true)
    (hq2 : '?' ∉ opts.signedUrlParam.drop 1) :
    (l.contains '?' = true →
      patchLine opts l = jsTrim l ++ '&' :: opts.signedUrlParam.drop 1 ∧
      List.count '?' (patchLine opts l) = List.count '?' (jsTrim l)) ∧
    (l.contains '?' = false →
      patchLine opts l = jsTrim l ++ opts.signedUrlParam ∧
      List.count '?' (patchLine opts l) = List.count '?' (jsTrim l) + 1) := by
  have hkey : isKeyLine (jsTrim l) = false := isKeyLine_eq_false_of_not_hash hh
  have hpl : patchLine opts l = patchSegmentOrPass opts.signedUrlParam l := by
    simp [patchLine, hkey]
  have hie : (jsTrim l).isEmpty = false := List.isEmpty_eq_false.mpr hne
  constructor
  · intro hc
    have hmem : '?' ∈ l := contains_iff_mem.mp hc
    have hmt : '?' ∈ jsTrim l := mem_jsTrim_of_not_white hmem (by decide)
    have hct : (jsTrim l).contains '?' = true := contains_iff_mem.mpr hmt
    have heq : patchLine opts l = jsTrim l ++ '&' :: opts.signedUrlParam.drop 1 := by
      rw [hpl]
      simp only [patchSegmentOrPass]
      rw [hie, hh]
      simp only [Bool.or_self]
      rw [if_neg Bool.false_ne_true, hct, if_pos rfl]
    refine ⟨heq, ?_⟩
    rw [heq, List.count_append, List.count_cons_of_ne (by decide) _,
      List.count_eq_zero_of_not_mem hq2]
    omega
  · intro hc
    have hnm : '?' ∉ l := fun hm => by rw [contains_iff_mem.mpr hm] at hc; cases hc
    have hnt : '?' ∉ jsTrim l := fun hm => hnm (mem_of_mem_jsTrim hm)
    have hct : (jsTrim l).contains '?' = false := by
      cases hx : (jsTrim l).contains '?'
      · rfl
      · exact absurd (contains_iff_mem.mp hx) hnt
    have heq : patchLine opts l = jsTrim l ++ opts.signedUrlParam := by
      rw [hpl]
      simp only [patchSegmentOrPass]
      rw [hie, hh]
      simp only [Bool.or_self]
      rw [if_neg Bool.false_ne_true, hct, if_neg Bool.false_ne_true]
    refine ⟨heq, ?_⟩
    rw [heq, List.count_append, single_isPrefixOf_eq hq, List.count_cons_self,
      List.count_eq_zero_of_not_mem hq2]

/-- C5 witness: the query-append theorem at a segment line that already has
a query string: the parameter is `&`-joined and no `?` is added. -/
theorem stream_segment_query_append_witness :
    patchLine ⟨"?tok=1".data, none⟩ ("seg.ts?a=1".data) = "seg.ts?a=1&tok=1".data ∧
    List.count '?' (patchLine ⟨"?tok=1".data, none⟩ ("seg.ts?a=1".data)) = 1 := by
  have h := stream_segment_query_append ⟨"?tok=1".data, none⟩ ("seg.ts?a=1".data)
    (by decide) (by decide) (by decide) (by decide)
  obtain ⟨h1, h2⟩ := h.1 (by decide)
  refine ⟨?_, ?_⟩
  · rw [h1]; rfl
  · rw [h2]; rfl

/-- C6: in the streaming-mode rewrite, a key-directive line is rewritten
only when a key URI is configured (truthy): with no key (null, or empty
string, both falsy) the line is returned unchanged - the original line,
byte for byte - and a key-directive line whose IV attribute is absent is
also returned unchanged rather than the rewrite failing (`patchM3U8` is
total). -/
theorem stream_key_passthrough (opts : LoaderOpts) (l : List Char)
    (hk : isKeyLine (jsTrim l) = true) :
    (keyUriTruthy opts.keyUri = false → patchLine opts l = l) ∧
    (opts.keyUri = none → patchLine opts l = l) ∧
    (findIV (jsTrim l) = none → patchLine opts l = l) := by
  have hpass : patchSegmentOrPass opts.signedUrlParam l = l := by
    simp [patchSegmentOrPass, hash_isPrefixOf_of_key hk]
  have hfalse : keyUriTruthy opts.keyUri = false → patchLine opts l = l := by
    intro htr
    simp [patchLine, htr, hpass]
  refine ⟨hfalse, ?_, ?_⟩
  · intro hnone
    apply hfalse
    rw [hnone]
    rfl
  · intro hIV
    cases htr : keyUriTruthy opts.keyUri
    · exact hfalse htr
    · simp [patchLine, hk, htr, hIV, hpass]

/-- C6 witness: a key line passes through unchanged when no key is
configured, and a key line without an IV passes through unchanged even
with a configured key. -/
theorem stream_key_passthrough_witness :
    patchLine ⟨"?t".data, none⟩ (" #EXT-X-KEY:METHOD=AES-128,URI=\"k\",IV=1".data) =
      " #EXT-X-KEY:METHOD=AES-128,URI=\"k\",IV=1".data ∧
    patchLine ⟨"?t".data, some ("K".data)⟩ ("#EXT-X-KEY:METHOD=AES-128,URI=\"k\"".data) =
      "#EXT-X-KEY:METHOD=AES-128,URI=\"k\"".data := by
  have h1 := stream_key_passthrough ⟨"?t".data, none⟩
    (" #EXT-X-KEY:METHOD=AES-128,URI=\"k\",IV=1".data) (by decide)
  have h2 := stream_key_passthrough ⟨"?t".data, some ("K".data)⟩
    ("#EXT-X-KEY:METHOD=AES-128,URI=\"k\"".data) (by decide)
  exact ⟨h1.2.1 rfl, h2.2.2 (by decide)⟩

/-- C7: facade construction (recorded or live) succeeds and stores the
hostname exactly when `https://` ++ hostname parses as a valid absolute URL
(modelled `validHttpsUrl`), and otherwise throws the descriptive
construction error so no facade object is produced; in particular any
hostname containing a space and none of the authority delimiters
(`/ ? # \ @ :`, so the space lands in the host) fails construction. -/
theorem hostname_validation (vid h : List Char) :
    (validHttpsUrl h = true →
      mkFermionRecordedVideo vid h = .ok ⟨vid, h⟩ ∧
      mkFermionLivestreamVideo vid h = .ok ⟨vid, h⟩) ∧
    (validHttpsUrl h = false →
      mkFermionRecordedVideo vid h = .error hostnameErrorMsg ∧
      mkFermionLivestreamVideo vid h = .error hostnameErrorMsg) ∧
    (' ' ∈ h →
      (∀ c ∈ h, c ≠ '/' ∧ c ≠ '?' ∧ c ≠ '#' ∧ c ≠ '\\' ∧ c ≠ '@' ∧ c ≠ ':') →
      mkFermionRecordedVideo vid h = .error hostnameErrorMsg ∧
      mkFermionLivestreamVideo vid h = .error hostnameErrorMsg) := by
  refine ⟨?_, ?_, ?_⟩
  · intro hv
    exact ⟨by simp [mkFermionRecordedVideo, hv], by simp [mkFermionLivestreamVideo, hv]⟩
  · intro hv
    exact ⟨by simp [mkFermionRecordedVideo, hv], by simp [mkFermionLivestreamVideo, hv]⟩
  · intro hsp hdelim
    have hv : validHttpsUrl h = false := by
      simp only [validHttpsUrl]
      have h1 : (h.takeWhile fun c => !(c == '/' || c == '?' || c == '#' || c == '\\')) = h := by
        apply List.takeWhile_eq_self_iff.mpr
        intro c hc
        obtain ⟨d1, d2, d3, d4, -, -⟩ := hdelim c hc
        simp [d1, d2, d3, d4]
      rw [h1]
      have h2 : (h.reverse.takeWhile fun c => c ≠ '@') = h.reverse := by
        apply List.takeWhile_eq_self_iff.mpr
        intro c hc
        obtain ⟨-, -, -, -, d5, -⟩ := hdelim c (List.mem_reverse.mp hc)
        simp [d5]
      rw [h2, List.reverse_reverse]
      have h3 : (h.takeWhile fun c => c ≠ ':') = h := by
        apply List.takeWhile_eq_self_iff.mpr
        intro c hc
        obtain ⟨-, -, -, -, -, d6⟩ := hdelim c hc
        simp [d6]
      rw [h3]
      have h4 : (h.all fun c => !(decide (c.toNat < 0x21) || c == '<' || c == '>' ||
          c == '[' || c == ']' || c == '^' || c == '|')) = false := by
        cases hall : (h.all fun c => !(decide (c.toNat < 0x21) || c == '<' || c == '>' ||
            c == '[' || c == ']' || c == '^' || c == '|'))
        · rfl
        · have hsp2 := List.all_eq_true.mp hall ' ' hsp
          exact absurd hsp2 (by decide)
      rw [h4]
      simp
    exact ⟨by simp [mkFermionRecordedVideo, hv], by simp [mkFermionLivestreamVideo, hv]⟩

/-- C7 witness: `acme.fermion.app` constructs and is stored; the spec's
`invalid hostname` (a space in the host) fails with the descriptive
error, for both facades. -/
theorem hostname_validation_witness :
    mkFermionRecordedVideo ("vid".data) ("acme.fermion.app".data) =
      .ok ⟨"vid".data, "acme.fermion.app".data⟩ ∧
    mkFermionLivestreamVideo ("sess".data) ("acme.fermion.app".data) =
      .ok ⟨"sess".data, "acme.fermion.app".data⟩ ∧
    mkFermionRecordedVideo ("vid".data) ("invalid hostname".data) = .error hostnameErrorMsg ∧
    mkFermionLivestreamVideo ("sess".data) ("invalid hostname".data) = .error hostnameErrorMsg := by
  have h1 := hostname_validation ("vid".data) ("acme.fermion.app".data)
  have h2 := hostname_validation ("sess".data) ("acme.fermion.app".data)
  have h3 := hostname_validation ("vid".data) ("invalid hostname".data)
  have h4 := hostname_validation ("sess".data) ("invalid hostname".data)
  exact ⟨(h1.1 (by decide)).1, (h2.1 (by decide)).2,
    (h3.2.2 (by decide) (by decide)).1, (h4.2.2 (by decide) (by decide)).2⟩

/-- C8: the event-bridge message handler invokes no registered callback on
any message whose origin does not contain the configured hostname as a
substring, for every payload shape (valid or invalid) and every set of
registered callbacks. -/
theorem origin_filtering (websiteHostname origin : List Char) (data : Option IframeEvent)
    (cbs : EventCallbacks) (h : jsIncludes origin websiteHostname = false) :
    messageHandler websiteHostname origin data cbs = none := by
  simp [messageHandler, h]

/-- C8 witness: a well-formed play event from a foreign origin, with every
callback registered, still invokes nothing. -/
theorem origin_filtering_witness :
    messageHandler ("acme.fermion.app".data) ("https://evil.example.com".data)
      (some (.videoPlay 3)) ⟨true, true, true⟩ = none :=
  origin_filtering ("acme.fermion.app".data) ("https://evil.example.com".data)
    (some (.videoPlay 3)) ⟨true, true, true⟩ (by decide)
